import Mathlib

/-!
Verification of the transcript ingestion and chunking pipeline and the
retrieval layer of a podcast retrieval-augmented-answering repository.

Text is modelled as lists of characters (`Str`).  The repository's
subword tokenizer (the `gpt-tokenizer` package, an external collaborator)
is modelled as a parameter `tok : Str → ℕ` giving the token count of a
string; `charTok` is a concrete executable instance used in witnesses and
counterexamples.  Audio durations and similarity scores are exact
rationals.  External failures (provider errors, thrown exceptions) are
modelled with `Option`/`Bool` flags, and the catch-all recovery the code
performs is part of the translated definitions.
-/

namespace RunningPublic

abbrev Str := List Char

/-- Whitespace test used throughout (the ASCII part of a JS regex `\s`). -/
def isWs (c : Char) : Bool := c = ' ' || c = '\t' || c = '\n' || c = '\r'

/-- Model of JS `String.prototype.trim`: strip whitespace from both ends. -/
def trimStr (s : Str) : Str := ((s.dropWhile isWs).reverse.dropWhile isWs).reverse

/-- Model of JS `s.split(sep)` for a one-character separator: a
non-collapsing split, so consecutive separators produce empty pieces. -/
def splitOnChar (sep : Char) (s : Str) : List Str :=
  s.foldr (fun c acc =>
    match acc with
    | [] => [[c]]
    | w :: ws => if c = sep then [] :: w :: ws else (c :: w) :: ws) [[]]

/-- Model of JS `arr.join(sep)` for a one-character separator. -/
def joinChar (sep : Char) (ws : List Str) : Str := List.intercalate [sep] ws

/-- Sentence-ending punctuation of the chunker regex `/(?<=[.!?])\s+/`. -/
def isSentenceEnd (c : Char) : Bool := c = '.' || c = '!' || c = '?'

/-- Worker for `splitSentences`.  `inRun` records that the scan is inside a
separator whitespace run (the greedy `\s+` of the regex); `acc` holds the
current piece reversed. -/
def splitSentencesAux (inRun : Bool) (acc : Str) : Str → List Str
  | [] => [acc.reverse]
  | c :: rest =>
    if isWs c then
      if inRun then splitSentencesAux true acc rest
      else if (match acc with | p :: _ => isSentenceEnd p | [] => false) then
        acc.reverse :: splitSentencesAux true [] rest
      else splitSentencesAux false (c :: acc) rest
    else splitSentencesAux false (c :: acc) rest

/-- Model of `text.split(/(?<=[.!?])\s+/)` from `createOverlappingChunks`:
split at each maximal whitespace run whose preceding character is `.`, `!`
or `?`. -/
def splitSentences (s : Str) : List Str := splitSentencesAux false [] s

/-- Concrete token counter used for witnesses and counterexamples: the
number of non-whitespace characters.  The repository's tokenizer is an
external collaborator, so the theorems are parameterized over the counter. -/
def charTok (s : Str) : ℕ := (s.filter (fun c => !(isWs c))).length

/-- Overlap seed of `createOverlappingChunks`: the trailing `overlapSize`
whitespace-delimited words of the previous chunk (JS
`words.slice(Math.max(0, words.length - overlapSize)).join(' ')`) followed
by a space and the sentence that triggered the overflow. -/
def overlapSeed (overlapSize : ℕ) (prev sentence : Str) : Str :=
  let words := splitOnChar ' ' prev
  let overlapWords := words.drop (words.length - overlapSize)
  joinChar ' ' overlapWords ++ ' ' :: sentence

/-- Loop state of `createOverlappingChunks`: emitted chunks, the chunk
being accumulated, its running token count, and the token count the last
emitted chunk ended with (`lastChunkEndTokens`). -/
structure ChunkState where
  chunks : List Str
  cur : Str
  curTok : ℕ
  lastTok : ℕ

/-- One iteration of the sentence loop of `createOverlappingChunks`
(part_002 lines 126-151), parameterized by the token counter `tok`. -/
def chunkStep (tok : Str → ℕ) (chunkSize overlapSize : ℕ)
    (st : ChunkState) (sentence : Str) : ChunkState :=
  let sTok := tok sentence
  if chunkSize < st.curTok + sTok then
    if 0 < st.curTok then
      let seeded := overlapSeed overlapSize st.cur sentence
      { chunks := st.chunks ++ [trimStr st.cur], cur := seeded,
        curTok := tok seeded, lastTok := st.curTok }
    else
      { st with cur := sentence, curTok := sTok }
  else
    { st with cur := if st.cur = [] then sentence else st.cur ++ ' ' :: sentence,
              curTok := st.curTok + sTok }

/-- Model of `createOverlappingChunks` (part_002): split into sentences,
return the whole text if its token count is within `chunkSize`, otherwise
accumulate sentences greedily, seeding each new chunk with the overlap of
the previous one; the final chunk is emitted only when it is nonempty and
its token count differs from `lastChunkEndTokens`. -/
def createOverlappingChunks (tok : Str → ℕ) (text : Str)
    (chunkSize overlapSize : ℕ) : List Str :=
  let sentences := splitSentences text
  if tok text ≤ chunkSize then [text]
  else
    let st := sentences.foldl (chunkStep tok chunkSize overlapSize)
      { chunks := [], cur := [], curTok := 0, lastTok := 0 }
    if st.cur ≠ [] ∧ 0 < st.curTok ∧ st.curTok ≠ st.lastTok then
      st.chunks ++ [trimStr st.cur]
    else st.chunks

/-- Decidable check that `needle` occurs at the start of `hay`. -/
def begMatch : Str → Str → Bool
  | [], _ => true
  | _ :: _, [] => false
  | a :: as, b :: bs => a = b && begMatch as bs

/-- Decidable check that `needle` occurs contiguously anywhere in `hay`. -/
def containsSeg (needle : Str) : Str → Bool
  | [] => begMatch needle []
  | c :: rest => begMatch needle (c :: rest) || containsSeg needle rest

/- ## Audio segmenter (splitAudioFile, part_004 lines 96-153) -/

/-- Output of the segmenter: either the source file copied unchanged into
the working area, or an ffmpeg stream-copy of the timestamp range
`[start, start + len)`. -/
inductive AudioSegment where
  | copy
  | extract (start len : ℚ)
deriving DecidableEq

/-- Chunk count of `splitAudioFile`:
`Math.max(Math.ceil(fileSize / MAX_SIZE_BYTES), Math.ceil(duration / MAX_DURATION_SECONDS))`. -/
def numChunksFor (fileSize : ℕ) (duration : ℚ)
    (maxSizeBytes : ℕ) (maxDurationSeconds : ℚ) : ℕ :=
  max (⌈(fileSize : ℚ) / (maxSizeBytes : ℚ)⌉).toNat
    (⌈duration / maxDurationSeconds⌉).toNat

/-- Chunk length of `splitAudioFile`:
`Math.min(duration / numChunks, MAX_DURATION_SECONDS)`. -/
def chunkDurationFor (fileSize : ℕ) (duration : ℚ)
    (maxSizeBytes : ℕ) (maxDurationSeconds : ℚ) : ℚ :=
  min (duration / (numChunksFor fileSize duration maxSizeBytes maxDurationSeconds : ℚ))
    maxDurationSeconds

/-- Model of `splitAudioFile`: if the file is within both limits it is
returned as a single copied segment; otherwise it is cut into
`numChunksFor` timestamp ranges of equal length `chunkDurationFor`,
segment `i` starting at `i * chunkDuration`. -/
def splitAudioFile (fileSize : ℕ) (duration : ℚ)
    (maxSizeBytes : ℕ) (maxDurationSeconds : ℚ) : List AudioSegment :=
  if fileSize ≤ maxSizeBytes ∧ duration ≤ maxDurationSeconds then
    [AudioSegment.copy]
  else
    (List.range (numChunksFor fileSize duration maxSizeBytes maxDurationSeconds)).map
      (fun (i : ℕ) => AudioSegment.extract
        ((i : ℚ) * chunkDurationFor fileSize duration maxSizeBytes maxDurationSeconds)
        (chunkDurationFor fileSize duration maxSizeBytes maxDurationSeconds))

/- ## Transcription orchestrator (createTranscripts, part_004 lines 199-256;
     transcribeAudio, part_003) -/

/-- Shape of a parsed transcription response: a bare string, an object with
optional `transcript` and `text` fields, or anything else. -/
inductive JsonShape where
  | str (s : Str)
  | obj (transcriptField textField : Option Str)
  | other
deriving DecidableEq

/-- Raw provider response as seen by the orchestrator: `ok j` when
`JSON.parse` succeeds with shape `j`, `malformed` when `JSON.parse`
throws. -/
inductive ProviderResponse where
  | ok (j : JsonShape)
  | malformed
deriving DecidableEq

/-- Model of `transcribeAudio` (part_003): try the primary model and, if
that call fails, the fallback model once; `none` models a thrown error. -/
def transcribeAudio (primary fallback : Option ProviderResponse) :
    Option ProviderResponse :=
  match primary with
  | some r => some r
  | none => fallback

/-- One audio segment as the orchestrator sees it: the outcomes of the
primary and fallback transcription attempts. -/
abbrev SegmentInput := Option ProviderResponse × Option ProviderResponse

/-- JS truthiness of an optional string field: present and nonempty. -/
def truthyStr : Option Str → Option Str
  | some s => if s = [] then none else some s
  | none => none

/-- Text extraction of `createTranscripts` (part_004 lines 216-235): a bare
string is used as is; otherwise the `transcript` field, then the `text`
field; any other shape contributes the empty string. -/
def extractTranscriptText : JsonShape → Str
  | JsonShape.str s => s
  | JsonShape.obj t x =>
    match truthyStr t with
    | some s => s
    | none =>
      match truthyStr x with
      | some s => s
      | none => []
  | JsonShape.other => []

/-- Per-segment text as produced inside the orchestrator's batch lambda:
every failure path (thrown transcription, unparsable JSON) is caught and
contributes the empty string. -/
def segmentText (seg : SegmentInput) : Str :=
  match transcribeAudio seg.1 seg.2 with
  | none => []
  | some ProviderResponse.malformed => []
  | some (ProviderResponse.ok j) => extractTranscriptText j

/-- Decidable test that a segment fails: its transcription throws even
after fallback, its response is unparsable, or no text field can be
extracted from the parsed shape. -/
def failsToYield (seg : SegmentInput) : Bool :=
  match transcribeAudio seg.1 seg.2 with
  | none => true
  | some ProviderResponse.malformed => true
  | some (ProviderResponse.ok (JsonShape.str _)) => false
  | some (ProviderResponse.ok (JsonShape.obj t x)) =>
    (truthyStr t).isNone && (truthyStr x).isNone
  | some (ProviderResponse.ok JsonShape.other) => true

/-- Fuel-indexed worker for `batches`; the batch size is `k + 1` and the
fuel is an upper bound on the list length. -/
def batchesAux (k : ℕ) : ℕ → List α → List (List α)
  | _, [] => []
  | 0, x :: xs => [x :: xs]
  | fuel + 1, x :: xs => (x :: xs.take k) :: batchesAux k fuel (xs.drop k)

/-- Model of the batching loop `for (i = 0; i < n; i += W) slice(i, i + W)`
of `createTranscripts`, for a positive worker count `W`. -/
def batches (W : ℕ) (l : List α) : List (List α) := batchesAux (W - 1) l.length l

/-- One append of the reassembly loop: skip an empty contribution,
otherwise join with a single space
(`allTranscriptText += (allTranscriptText ? " " : "") + result.text`). -/
def joinStep (acc t : Str) : Str :=
  if t = [] then acc else if acc = [] then t else acc ++ ' ' :: t

/-- Order-preserving concatenation of all segment texts joined by single
spaces, skipping empty contributions. -/
def joinTexts (l : List Str) : Str := l.foldl joinStep []

/-- Specification-side description of the reassembled transcript, written
from the claim text rather than the source: drop empty contributions and
join the remaining texts in order with single spaces. -/
def joinSpec (texts : List Str) : Str :=
  List.intercalate [' '] (texts.filter (fun t => decide (t ≠ [])))

/-- Model of the orchestrator reassembly: per-segment texts are processed
in batches of `W`, and within each batch appended in original order. -/
def assembleTranscript (W : ℕ) (texts : List Str) : Str :=
  (batches W texts).foldl (fun acc b => b.foldl joinStep acc) []

/-- Full transcript produced by `createTranscripts` for one episode, from
the per-segment transcription outcomes. -/
def createTranscriptText (W : ℕ) (segs : List SegmentInput) : Str :=
  assembleTranscript W (segs.map segmentText)

/-- Model of `Promise.all` for one batch: `arrivals` lists the pairs
(original index, result) in completion order, and the collected array
holds each result at its original index. -/
def collectByIndex (arrivals : List (ℕ × Str)) : List Str :=
  (List.range arrivals.length).map (fun i => ((arrivals.lookup i).getD []))

/-- Orchestrator reassembly driven by an explicit completion schedule: one
arrival list per batch, folded in batch order. -/
def runSchedule (schedule : List (List (ℕ × Str))) : Str :=
  schedule.foldl (fun acc arrivals => (collectByIndex arrivals).foldl joinStep acc) []

/- ## Boundary-aware semantic chunker (semantic-chunker.ts) -/

/-- Punctuation character class `[.!?,;:]` of the cleanup regexes in
`createSemanticChunks`. -/
def isPunctArtifact (c : Char) : Bool :=
  c = '.' || c = '!' || c = '?' || c = ',' || c = ';' || c = ':'

/-- Continuation of `dropPunctSpaceGroups` inside a whitespace run: consume
the run, then a further punctuation-plus-whitespace group if present. -/
def dpsgSkip : Str → Str
  | [] => []
  | c :: rest =>
    if isWs c then dpsgSkip rest
    else if isPunctArtifact c &&
        (match rest with | d :: _ => isWs d | [] => false) then dpsgSkip rest
    else c :: rest

/-- Model of `chunk.replace(/^([.!?,;:]\s+)+/, '')`: remove leading groups
of a punctuation character followed by whitespace. -/
def dropPunctSpaceGroups : Str → Str
  | [] => []
  | c :: rest =>
    if isPunctArtifact c &&
        (match rest with | d :: _ => isWs d | [] => false) then dpsgSkip rest
    else c :: rest

/-- Chunk cleanup of `createSemanticChunks` (semantic-chunker.ts lines
31-42): trim, strip leading punctuation-plus-whitespace groups, then strip
a leading run of bare punctuation. -/
def cleanChunk (c : Str) : Str :=
  (dropPunctSpaceGroups (trimStr c)).dropWhile isPunctArtifact

/-- Model of `createSemanticChunks`: the `RecursiveCharacterTextSplitter`
is an external collaborator, modelled by its output list of chunks; the
function post-processes every chunk with `cleanChunk`. -/
def createSemanticChunks (splitterOutput : List Str) : List Str :=
  splitterOutput.map cleanChunk

/- ## Retrieval engine (findRelevantContent, database-tools.ts lines 296-330) -/

/-- Stored embedding row (`embeddings` table). -/
structure EmbeddingRow where
  id : ℕ
  content : String
  resourceId : ℕ
  embedding : List ℚ
deriving DecidableEq

/-- One retrieval match as selected by the similarity query. -/
structure RetrievedMatch where
  id : ℕ
  content : String
  resourceId : ℕ
  similarity : ℚ
deriving DecidableEq

/-- Result of `findRelevantContent`: a sentinel message object
`{ content: ... }` or a list of matches. -/
inductive RetrievalResult where
  | message (content : String)
  | results (rows : List RetrievedMatch)
deriving DecidableEq

/-- Similarity selection of `findRelevantContent`, executed by the
database: similarity is `1 - cosineDistance`, rows are kept when their
similarity is strictly above the threshold, ordered by descending
similarity and capped at `matchCount`.  `cosDist` is the external
`pgvector` cosine distance. -/
def retrieveMatches (cosDist : List ℚ → List ℚ → ℚ) (table : List EmbeddingRow)
    (queryEmbedding : List ℚ) (matchThreshold : ℚ) (matchCount : ℕ) :
    List RetrievedMatch :=
  (((table.filter
      (fun r => decide (matchThreshold < 1 - cosDist r.embedding queryEmbedding))).mergeSort
      (fun a b => decide (1 - cosDist b.embedding queryEmbedding ≤
        1 - cosDist a.embedding queryEmbedding))).take matchCount).map
    (fun r => RetrievedMatch.mk r.id r.content r.resourceId
      (1 - cosDist r.embedding queryEmbedding))

/-- Model of `findRelevantContent`: embed the query, run the similarity
selection, and return a sentinel when nothing matches; any failure of the
embedding call or of the database query is caught and becomes the error
sentinel.  The two `Bool` flags inject failures of the two external
calls. -/
def findRelevantContent (cosDist : List ℚ → List ℚ → ℚ)
    (table : List EmbeddingRow) (embedFails queryFails : Bool)
    (queryEmbedding : List ℚ) (matchThreshold : ℚ) (matchCount : ℕ) :
    RetrievalResult :=
  if embedFails then RetrievalResult.message "Error retrieving content"
  else if queryFails then RetrievalResult.message "Error retrieving content"
  else if retrieveMatches cosDist table queryEmbedding matchThreshold matchCount = [] then
    RetrievalResult.message "No relevant content found"
  else
    RetrievalResult.results
      (retrieveMatches cosDist table queryEmbedding matchThreshold matchCount)

/- ## Example inputs used by witnesses -/

/-- Constant zero cosine distance used by the retrieval witnesses. -/
def czero : List ℚ → List ℚ → ℚ := fun _ _ => 0

/-- Segment inputs for the orchestrator witness: a plain-string response, a
segment whose transcription throws on both models, and an object response
whose `transcript` field is empty but whose `text` field is set. -/
def exSegs : List SegmentInput :=
  [(some (ProviderResponse.ok (JsonShape.str "ab".toList)), none),
   (none, none),
   (some (ProviderResponse.ok (JsonShape.obj (some []) (some "cd".toList))), none)]

/-- Exception clause of claim C2 as stated: the chunk is a single input
sentence whose own token count exceeds the chunk size. -/
def SingleSentenceException (tok : Str → ℕ) (chunkSize : ℕ) (text c : Str) : Prop :=
  ∃ s ∈ splitSentences text, c = trimStr s ∧ chunkSize < tok s

/-- Additional exception the code actually produces: the chunk was seeded
from the trailing overlap words of the previous chunk followed by the
sentence that triggered the overflow, and that seed already exceeds the
chunk size. -/
def SeededChunkException (tok : Str → ℕ) (chunkSize overlapSize : ℕ)
    (text c : Str) : Prop :=
  ∃ w s, s ∈ splitSentences text ∧ c = trimStr (overlapSeed overlapSize w s) ∧
    chunkSize < tok (overlapSeed overlapSize w s)

/-- Amended bound on an emitted chunk: within the token budget, or one of
the two exceptional shapes the code produces. -/
def ChunkOk (tok : Str → ℕ) (chunkSize overlapSize : ℕ) (text c : Str) : Prop :=
  tok c ≤ chunkSize ∨ SingleSentenceException tok chunkSize text c ∨
    SeededChunkException tok chunkSize overlapSize text c

/-- Shape invariant of the chunk being accumulated: it is a single input
sentence or an overlap seed.  The accumulating loop only lets the running
chunk exceed the budget in one of these two states. -/
def CurOk (tok : Str → ℕ) (overlapSize : ℕ) (text cur : Str) : Prop :=
  cur ∈ splitSentences text ∨
    ∃ w s, s ∈ splitSentences text ∧ cur = overlapSeed overlapSize w s

/- ## Helper lemmas -/

theorem head?_dropWhile_not (p : α → Bool) (l : List α) :
    ∀ a, (l.dropWhile p).head? = some a → p a = false := by
  induction l with
  | nil => intro a h; simp [List.dropWhile] at h
  | cons x xs ih =>
    intro a h
    rw [List.dropWhile_cons] at h
    by_cases hx : p x = true
    · rw [if_pos hx] at h; exact ih a h
    · rw [if_neg hx] at h
      simp only [List.head?_cons, Option.some.injEq] at h
      subst h
      exact Bool.eq_false_iff.mpr hx

theorem batchesAux_flatten (k : ℕ) :
    ∀ (fuel : ℕ) (l : List α), l.length ≤ fuel →
      (batchesAux k fuel l).flatten = l := by
  intro fuel
  induction fuel with
  | zero =>
    intro l hl
    have h0 : l = [] := List.length_eq_zero.mp (Nat.le_zero.mp hl)
    subst h0; rfl
  | succ n ih =>
    intro l hl
    cases l with
    | nil => rfl
    | cons x xs =>
      have hdrop : (xs.drop k).length ≤ n := by
        rw [List.length_drop]
        have hx : xs.length ≤ n := by simpa using hl
        omega
      simp only [batchesAux, List.flatten_cons]
      rw [ih (xs.drop k) hdrop, List.cons_append, List.take_append_drop]

theorem batches_flatten (W : ℕ) (l : List α) : (batches W l).flatten = l :=
  batchesAux_flatten (W - 1) l.length l le_rfl

theorem foldl_foldl_flatten (f : Str → Str → Str) (bs : List (List Str)) :
    ∀ acc, bs.foldl (fun a b => b.foldl f a) acc = bs.flatten.foldl f acc := by
  induction bs with
  | nil => intro acc; rfl
  | cons b bs ih =>
    intro acc
    rw [List.foldl_cons, List.flatten_cons, List.foldl_append]
    exact ih _

theorem assembleTranscript_eq_joinTexts (W : ℕ) (texts : List Str) :
    assembleTranscript W texts = joinTexts texts := by
  unfold assembleTranscript joinTexts
  rw [foldl_foldl_flatten joinStep (batches W texts) [], batches_flatten]

theorem lookup_eq_of_nodup_mem {α β : Type} [BEq α] [LawfulBEq α]
    {l : List (α × β)} (hnd : (l.map Prod.fst).Nodup)
    {i : α} {x : β} (hmem : (i, x) ∈ l) : l.lookup i = some x := by
  induction l with
  | nil => simp at hmem
  | cons p rest ih =>
    obtain ⟨j, y⟩ := p
    rw [List.map_cons, List.nodup_cons] at hnd
    rcases List.mem_cons.mp hmem with heq | hmem2
    · injection heq with h1 h2
      subst h1; subst h2
      simp [List.lookup]
    · have hij : (i == j) = false := by
        rw [beq_eq_false_iff_ne]
        rintro rfl
        exact hnd.1 (by simpa using List.mem_map_of_mem Prod.fst hmem2)
      simp only [List.lookup, hij]
      exact ih hnd.2 hmem2

theorem collectByIndex_perm_enum {arrivals : List (ℕ × Str)} {l : List Str}
    (hp : arrivals.Perm l.enum) : collectByIndex arrivals = l := by
  have hlen : arrivals.length = l.length := by simpa using hp.length_eq
  have hnd : (arrivals.map Prod.fst).Nodup := by
    have hmap := hp.map Prod.fst
    have hre : (List.map Prod.fst l.enum).Nodup := by
      rw [List.enum_map_fst]; exact List.nodup_range _
    exact hmap.nodup_iff.mpr hre
  have hlook : ∀ (i : ℕ) (hi : i < l.length),
      arrivals.lookup i = some (l.get ⟨i, hi⟩) := by
    intro i hi
    have hmem : (i, l.get ⟨i, hi⟩) ∈ l.enum := by
      have hi2 : i < l.enum.length := by simpa using hi
      have h1 : l.enum.get ⟨i, hi2⟩ = (i, l.get ⟨i, hi⟩) := by
        simpa using List.getElem_enum l i hi2
      rw [← h1]
      exact l.enum.get_mem i hi2
    exact lookup_eq_of_nodup_mem hnd (hp.mem_iff.mpr hmem)
  apply List.ext_get
  · simp [collectByIndex, hlen]
  · intro i h1 h2
    have hi : i < l.length := h2
    simp only [collectByIndex, List.get_map, List.get_range]
    rw [hlook i hi]
    rfl

theorem runSchedule_foldl (schedule : List (List (ℕ × Str))) (Bs : List (List Str))
    (h : List.Forall₂ (fun arr b => arr.Perm b.enum) schedule Bs) :
    ∀ acc : Str,
      schedule.foldl (fun acc arrivals => (collectByIndex arrivals).foldl joinStep acc) acc =
        Bs.flatten.foldl joinStep acc := by
  induction h with
  | nil => intro acc; rfl
  | cons hab htail ih =>
    intro acc
    rw [List.foldl_cons, collectByIndex_perm_enum hab, List.flatten_cons,
      List.foldl_append]
    exact ih _

theorem segmentText_eq_nil_of_fails (seg : SegmentInput)
    (h : failsToYield seg = true) : segmentText seg = [] := by
  unfold segmentText
  unfold failsToYield at h
  cases htr : transcribeAudio seg.1 seg.2 with
  | none => rfl
  | some r =>
    rw [htr] at h
    cases r with
    | malformed => rfl
    | ok j =>
      cases j with
      | str s => simp at h
      | other => rfl
      | obj t x =>
        simp only [Bool.and_eq_true, Option.isNone_iff_eq_none] at h
        simp [extractTranscriptText, h.1, h.2]

theorem joinStep_extend (acc x : Str) : ∃ p, joinStep acc x = acc ++ p := by
  unfold joinStep
  by_cases hx : x = []
  · exact ⟨[], by rw [if_pos hx, List.append_nil]⟩
  · rw [if_neg hx]
    by_cases ha : acc = []
    · exact ⟨x, by rw [if_pos ha, ha]; rfl⟩
    · exact ⟨' ' :: x, by rw [if_neg ha]⟩

theorem foldl_joinStep_extend (l : List Str) :
    ∀ acc : Str, ∃ q, l.foldl joinStep acc = acc ++ q := by
  induction l with
  | nil => intro acc; exact ⟨[], (List.append_nil acc).symm⟩
  | cons x l ih =>
    intro acc
    rcases joinStep_extend acc x with ⟨p, hp⟩
    rcases ih (joinStep acc x) with ⟨q, hq⟩
    exact ⟨p ++ q, by rw [List.foldl_cons, hq, hp, List.append_assoc]⟩

theorem foldl_joinStep_contains (t : Str) (hne : t ≠ []) :
    ∀ (l : List Str) (acc : Str), t ∈ l →
      ∃ p q, l.foldl joinStep acc = p ++ (t ++ q) := by
  intro l
  induction l with
  | nil => intro acc h; simp at h
  | cons x l ih =>
    intro acc hmem
    rcases List.mem_cons.mp hmem with rfl | hmem2
    · rcases foldl_joinStep_extend l (joinStep acc t) with ⟨q, hq⟩
      rw [List.foldl_cons, hq]
      unfold joinStep
      rw [if_neg hne]
      by_cases ha : acc = []
      · rw [if_pos ha]
        exact ⟨[], q, by simp⟩
      · rw [if_neg ha]
        exact ⟨acc ++ [' '], q, by simp⟩
    · rcases ih (joinStep acc x) hmem2 with ⟨p, q, hpq⟩
      exact ⟨p, q, by rw [List.foldl_cons]; exact hpq⟩

theorem joinTexts_contains (l : List Str) (t : Str) (ht : t ∈ l) (hne : t ≠ []) :
    ∃ p q, joinTexts l = p ++ (t ++ q) :=
  foldl_joinStep_contains t hne l [] ht

theorem intercalate_space_cons_cons (a b : Str) (rest : List Str) :
    List.intercalate [' '] (a :: b :: rest) =
      a ++ ' ' :: List.intercalate [' '] (b :: rest) := by
  simp [List.intercalate, List.intersperse_cons_cons]

theorem foldl_joinStep_intercalate (l : List Str) :
    ∀ acc : Str, acc ≠ [] →
      l.foldl joinStep acc =
        List.intercalate [' '] (acc :: l.filter (fun t => decide (t ≠ []))) := by
  induction l with
  | nil =>
    intro acc _
    simp [List.intercalate, List.intersperse]
  | cons x l ih =>
    intro acc hacc
    rw [List.foldl_cons]
    by_cases hx : x = []
    · subst hx
      rw [show joinStep acc [] = acc from rfl, ih acc hacc]
      simp
    · have hstep : joinStep acc x = acc ++ ' ' :: x := by
        unfold joinStep
        rw [if_neg hx, if_neg hacc]
      have hne2 : acc ++ ' ' :: x ≠ [] := by simp
      rw [hstep, ih _ hne2]
      rw [List.filter_cons_of_pos (by simpa using hx)]
      cases hfl : l.filter (fun t => decide (t ≠ [])) with
      | nil =>
        simp [List.intercalate, List.intersperse, intercalate_space_cons_cons]
      | cons r rest =>
        rw [intercalate_space_cons_cons, intercalate_space_cons_cons,
          intercalate_space_cons_cons]
        simp

theorem joinTexts_eq_joinSpec (l : List Str) : joinTexts l = joinSpec l := by
  unfold joinTexts joinSpec
  induction l with
  | nil => rfl
  | cons x l ih =>
    rw [List.foldl_cons]
    by_cases hx : x = []
    · subst hx
      rw [show joinStep [] [] = [] from rfl, ih]
      simp
    · have hstep : joinStep [] x = x := by
        unfold joinStep
        rw [if_neg hx, if_pos rfl]
      rw [hstep, foldl_joinStep_intercalate l x hx,
        List.filter_cons_of_pos (by simpa using hx)]

/- ## Claim C4: transcript order independent of completion order -/

/-- Claim C4: for every ordered list of per-segment texts and every
per-batch completion order, the orchestrator output equals the
order-preserving concatenation of the texts joined by single spaces with
empty contributions skipped — results are collected per batch by original
index, so completion order within a batch is irrelevant. -/
theorem claim_C4_order_preserved (W : ℕ) (texts : List Str)
    (schedule : List (List (ℕ × Str))) (hW : 0 < W)
    (hsched : List.Forall₂ (fun arr b => arr.Perm b.enum) schedule (batches W texts)) :
    runSchedule schedule = joinSpec texts := by
  rw [← joinTexts_eq_joinSpec]
  unfold runSchedule joinTexts
  rw [runSchedule_foldl schedule (batches W texts) hsched [], batches_flatten]

theorem claim_C4_witness :
    (0 < 2) ∧
    runSchedule [[(1, "".toList), (0, "ab".toList)], [(1, "ef".toList), (0, "cd".toList)]] =
      joinSpec ["ab".toList, "".toList, "cd".toList, "ef".toList] ∧
    joinSpec ["ab".toList, "".toList, "cd".toList, "ef".toList] = "ab cd ef".toList :=
  ⟨by decide,
    claim_C4_order_preserved 2 ["ab".toList, "".toList, "cd".toList, "ef".toList]
      [[(1, "".toList), (0, "ab".toList)], [(1, "ef".toList), (0, "cd".toList)]]
      (by decide) (by decide),
    by decide⟩

/- ## Claim C5: one failing segment neither throws nor loses the rest -/

/-- Claim C5: for every segment list containing a failing segment (thrown
transcription after fallback, unparsable response, or no extractable text
field), the orchestrator — whose per-segment lambda catches every failure,
so the model is a total function — gives that segment the empty
contribution while the text of every segment with a nonempty contribution
still occurs contiguously in the final transcript. -/
theorem claim_C5_partial_failure (W : ℕ) (segs : List SegmentInput) (i : ℕ)
    (hW : 0 < W) (hi : i < segs.length)
    (hfail : failsToYield (segs.get ⟨i, hi⟩) = true) :
    segmentText (segs.get ⟨i, hi⟩) = [] ∧
    ∀ (j : ℕ) (hj : j < segs.length), segmentText (segs.get ⟨j, hj⟩) ≠ [] →
      ∃ p q, createTranscriptText W segs =
        p ++ (segmentText (segs.get ⟨j, hj⟩) ++ q) := by
  refine ⟨segmentText_eq_nil_of_fails _ hfail, ?_⟩
  intro j hj hne
  rw [createTranscriptText, assembleTranscript_eq_joinTexts]
  exact joinTexts_contains _ _
    (List.mem_map_of_mem segmentText (segs.get_mem j hj)) hne

theorem claim_C5_witness :
    failsToYield (exSegs.get ⟨1, by decide⟩) = true ∧
    segmentText (exSegs.get ⟨1, by decide⟩) = [] ∧
    ∃ p q, createTranscriptText 2 exSegs = p ++ ("cd".toList ++ q) := by
  have h := claim_C5_partial_failure 2 exSegs 1 (by decide) (by decide) (by decide)
  refine ⟨by decide, h.1, ?_⟩
  have h2 := h.2 2 (by decide) (by decide)
  have e : segmentText (exSegs.get ⟨2, by decide⟩) = "cd".toList := by decide
  rw [e] at h2
  exact h2

/- ## Claim C9: semantic-chunker cleanup strips leading punctuation -/

/-- Claim C9: every chunk returned by `createSemanticChunks` is stripped of
leading stray punctuation: no returned chunk begins with a character from
the set `. ! ? , ; :`. -/
theorem claim_C9_no_leading_punct (splitterOutput : List Str) (c : Str)
    (hc : c ∈ createSemanticChunks splitterOutput) (ch : Char)
    (hhead : c.head? = some ch) : isPunctArtifact ch = false := by
  rcases List.mem_map.mp hc with ⟨x, _, rfl⟩
  exact head?_dropWhile_not isPunctArtifact (dropPunctSpaceGroups (trimStr x)) ch hhead

theorem claim_C9_witness :
    ("hi".toList ∈ createSemanticChunks [". . hi".toList]) ∧
    ("hi".toList : Str).head? = some 'h' ∧ isPunctArtifact 'h' = false :=
  ⟨by decide, by decide,
    claim_C9_no_leading_punct [". . hi".toList] "hi".toList (by decide) 'h' (by decide)⟩

/- ## Claim C7: short input returned as one chunk (not trimmed) -/

/-- Claim C7 as stated is false: when the whole text fits in one chunk the
code returns the text as is, not the trimmed text. -/
theorem claim_C7_counterexample :
    ¬ (createOverlappingChunks charTok " hi ".toList 300 50 =
        [trimStr " hi ".toList]) := by decide

/-- Claim C7 amended: for every input whose total token count is at most
`chunkSize`, `createOverlappingChunks` returns exactly one chunk, and that
chunk equals the input text unchanged. -/
theorem claim_C7_amended_single_chunk (tok : Str → ℕ) (text : Str)
    (chunkSize overlapSize : ℕ) (h : tok text ≤ chunkSize) :
    createOverlappingChunks tok text chunkSize overlapSize = [text] := by
  unfold createOverlappingChunks
  rw [if_pos h]

theorem claim_C7_witness :
    charTok " hi ".toList ≤ 300 ∧
    createOverlappingChunks charTok " hi ".toList 300 50 = [" hi ".toList] :=
  ⟨by decide, claim_C7_amended_single_chunk charTok " hi ".toList 300 50 (by decide)⟩

/- ## Claim C3: the chunker can drop the final chunk (code bug) -/

/-- Claim C3 fails on the code: on this input the sentence `eee.` is an
input sentence, yet the returned chunk list is `["aaaa bbb."]` and no chunk
contains that sentence — the final chunk is silently dropped because its
running token count collides with `lastChunkEndTokens` of the previous
chunk, so concatenating the chunks cannot reconstruct the original text. -/
theorem claim_C3_final_chunk_dropped :
    ("eee.".toList ∈ splitSentences "aaaa bbb. eee.".toList) ∧
    createOverlappingChunks charTok "aaaa bbb. eee.".toList 10 1 =
      ["aaaa bbb.".toList] ∧
    (∀ c ∈ createOverlappingChunks charTok "aaaa bbb. eee.".toList 10 1,
      containsSeg "eee.".toList c = false) := by decide

/- ## Claim C8: file within limits returned as a single copied segment -/

/-- Claim C8: for every audio file whose size and duration are within both
limits, `splitAudioFile` returns exactly one segment, the source file
copied unchanged. -/
theorem claim_C8_within_limits (fileSize : ℕ) (duration : ℚ)
    (maxSizeBytes : ℕ) (maxDurationSeconds : ℚ)
    (hs : fileSize ≤ maxSizeBytes) (hd : duration ≤ maxDurationSeconds) :
    splitAudioFile fileSize duration maxSizeBytes maxDurationSeconds =
      [AudioSegment.copy] := by
  unfold splitAudioFile
  rw [if_pos ⟨hs, hd⟩]

theorem claim_C8_witness :
    (3145728 ≤ 5242880) ∧ ((300 : ℚ) ≤ 600) ∧
    splitAudioFile 3145728 300 5242880 600 = [AudioSegment.copy] :=
  ⟨by norm_num, by norm_num,
    claim_C8_within_limits 3145728 300 5242880 600 (by norm_num) (by norm_num)⟩

/- ## Claim C10: retrieval failures become the error sentinel -/

/-- Claim C10: when the embedding call or the similarity query fails,
`findRelevantContent` catches the failure and returns the
`Error retrieving content` sentinel instead of propagating it. -/
theorem claim_C10_error_sentinel (cosDist : List ℚ → List ℚ → ℚ)
    (table : List EmbeddingRow) (embedFails queryFails : Bool)
    (q : List ℚ) (thr : ℚ) (cnt : ℕ)
    (h : embedFails = true ∨ queryFails = true) :
    findRelevantContent cosDist table embedFails queryFails q thr cnt =
      RetrievalResult.message "Error retrieving content" := by
  rcases h with h | h
  · subst h; rfl
  · subst h
    cases embedFails <;> rfl

theorem claim_C10_witness :
    ((true : Bool) = true ∨ (false : Bool) = true) ∧
    findRelevantContent (fun _ _ => 0) [] true false [] (1 / 10) 4 =
      RetrievalResult.message "Error retrieving content" :=
  ⟨Or.inl rfl,
    claim_C10_error_sentinel (fun _ _ => 0) [] true false [] (1 / 10) 4 (Or.inl rfl)⟩

theorem charTok_append_space (a b : Str) :
    charTok (a ++ ' ' :: b) = charTok a + charTok b := by
  simp [charTok, List.filter_append, isWs]

theorem charTok_dropWhile_ws (l : Str) : charTok (l.dropWhile isWs) = charTok l := by
  induction l with
  | nil => rfl
  | cons x xs ih =>
    rw [List.dropWhile_cons]
    by_cases hx : isWs x = true
    · rw [if_pos hx, ih]
      simp [charTok, List.filter_cons, hx]
    · rw [if_neg hx]

theorem charTok_reverse (l : Str) : charTok l.reverse = charTok l := by
  simp [charTok, List.filter_reverse]

theorem charTok_trim (s : Str) : charTok (trimStr s) = charTok s := by
  unfold trimStr
  rw [charTok_reverse, charTok_dropWhile_ws, charTok_reverse, charTok_dropWhile_ws]

theorem chunkOk_of_push (tok : Str → ℕ) (hT : ∀ s : Str, tok (trimStr s) = tok s)
    (cs os : ℕ) (text cur : Str)
    (hshape : cs < tok cur → CurOk tok os text cur) :
    ChunkOk tok cs os text (trimStr cur) := by
  by_cases hle : tok cur ≤ cs
  · exact Or.inl (by rw [hT]; exact hle)
  · have hgt : cs < tok cur := lt_of_not_le hle
    rcases hshape hgt with hs | ⟨w, s, hsmem, heq⟩
    · exact Or.inr (Or.inl ⟨cur, hs, rfl, hgt⟩)
    · subst heq
      exact Or.inr (Or.inr ⟨w, s, hsmem, rfl, hgt⟩)

theorem chunkStep_invariant (tok : Str → ℕ)
    (hA : ∀ a b : Str, tok (a ++ ' ' :: b) = tok a + tok b)
    (hT : ∀ s : Str, tok (trimStr s) = tok s)
    (hN : tok [] = 0)
    (text : Str) (cs os : ℕ) (st : ChunkState) (s : Str)
    (hsmem : s ∈ splitSentences text)
    (h1 : tok st.cur = st.curTok)
    (h2 : cs < st.curTok → CurOk tok os text st.cur)
    (h3 : ∀ c ∈ st.chunks, ChunkOk tok cs os text c) :
    tok (chunkStep tok cs os st s).cur = (chunkStep tok cs os st s).curTok ∧
    (cs < (chunkStep tok cs os st s).curTok →
      CurOk tok os text (chunkStep tok cs os st s).cur) ∧
    (∀ c ∈ (chunkStep tok cs os st s).chunks, ChunkOk tok cs os text c) := by
  unfold chunkStep
  by_cases hov : cs < st.curTok + tok s
  · by_cases hpos : 0 < st.curTok
    · simp only [if_pos hov, if_pos hpos]
      refine ⟨trivial, fun _ => Or.inr ⟨st.cur, s, hsmem, rfl⟩, ?_⟩
      intro c hc
      rcases List.mem_append.mp hc with hc1 | hc2
      · exact h3 c hc1
      · rw [List.mem_singleton] at hc2
        subst hc2
        exact chunkOk_of_push tok hT cs os text st.cur (fun hgt => h2 (h1 ▸ hgt))
    · simp only [if_pos hov, if_neg hpos]
      exact ⟨trivial, fun _ => Or.inl hsmem, h3⟩
  · simp only [if_neg hov]
    by_cases hemp : st.cur = []
    · simp only [if_pos hemp]
      have h0 : st.curTok = 0 := by rw [← h1, hemp, hN]
      refine ⟨?_, fun hgt => absurd hgt hov, h3⟩
      rw [h0]
      simp
    · simp only [if_neg hemp]
      exact ⟨by rw [hA, h1], fun hgt => absurd hgt hov, h3⟩

theorem chunkLoop_invariant (tok : Str → ℕ)
    (hA : ∀ a b : Str, tok (a ++ ' ' :: b) = tok a + tok b)
    (hT : ∀ s : Str, tok (trimStr s) = tok s)
    (hN : tok [] = 0)
    (text : Str) (cs os : ℕ) :
    ∀ (l : List Str), (∀ s ∈ l, s ∈ splitSentences text) →
    ∀ (st : ChunkState),
      tok st.cur = st.curTok →
      (cs < st.curTok → CurOk tok os text st.cur) →
      (∀ c ∈ st.chunks, ChunkOk tok cs os text c) →
      tok (l.foldl (chunkStep tok cs os) st).cur =
        (l.foldl (chunkStep tok cs os) st).curTok ∧
      (cs < (l.foldl (chunkStep tok cs os) st).curTok →
        CurOk tok os text (l.foldl (chunkStep tok cs os) st).cur) ∧
      (∀ c ∈ (l.foldl (chunkStep tok cs os) st).chunks, ChunkOk tok cs os text c) := by
  intro l
  induction l with
  | nil => intro _ st h1 h2 h3; exact ⟨h1, h2, h3⟩
  | cons s l ih =>
    intro hsub st h1 h2 h3
    rw [List.foldl_cons]
    have hstep := chunkStep_invariant tok hA hT hN text cs os st s
      (hsub s (List.mem_cons_self _ _)) h1 h2 h3
    exact ih (fun x hx => hsub x (List.mem_cons_of_mem _ hx))
      (chunkStep tok cs os st s) hstep.1 hstep.2.1 hstep.2.2

/- ## Claim C2: fixed-window chunk token bound -/

/-- Claim C2 as stated is false: with the non-whitespace-character token
counter, chunk size 10 and overlap 5, the input below yields a chunk of 16
tokens that is not a single oversized input sentence — it is the overlap
carried from the previous chunk plus the overflowing sentence. -/
theorem claim_C2_counterexample :
    ¬ (∀ c ∈ createOverlappingChunks charTok
          "aaaa bbb. cccc ddd. eeee fff.".toList 10 5,
        charTok c ≤ 10 ∨
          SingleSentenceException charTok 10
            "aaaa bbb. cccc ddd. eeee fff.".toList c) := by
  unfold SingleSentenceException
  decide

/-- Claim C2 amended: for every token counter that is additive over the
space-joins the chunker performs, invariant under trimming, and zero on
the empty string, every emitted chunk is within the token budget except a
chunk that is a single oversized input sentence or an overlap-seeded chunk
(the trailing overlap words of the previous chunk plus the sentence that
triggered the overflow) whose seed already exceeds the budget. -/
theorem claim_C2_amended_token_bound (tok : Str → ℕ)
    (hA : ∀ a b : Str, tok (a ++ ' ' :: b) = tok a + tok b)
    (hT : ∀ s : Str, tok (trimStr s) = tok s)
    (hN : tok [] = 0)
    (text : Str) (cs os : ℕ) :
    ∀ c ∈ createOverlappingChunks tok text cs os, ChunkOk tok cs os text c := by
  intro c hc
  simp only [createOverlappingChunks] at hc
  by_cases hshort : tok text ≤ cs
  · rw [if_pos hshort] at hc
    rw [List.mem_singleton] at hc
    subst hc
    exact Or.inl hshort
  · rw [if_neg hshort] at hc
    have hinv := chunkLoop_invariant tok hA hT hN text cs os (splitSentences text)
      (fun _ hs => hs) { chunks := [], cur := [], curTok := 0, lastTok := 0 }
      (by rw [hN]) (fun h => absurd h (Nat.not_lt_zero cs))
      (fun c hc2 => absurd hc2 (List.not_mem_nil c))
    set st := (splitSentences text).foldl (chunkStep tok cs os)
      { chunks := [], cur := [], curTok := 0, lastTok := 0 } with hst
    by_cases hfin : st.cur ≠ [] ∧ 0 < st.curTok ∧ st.curTok ≠ st.lastTok
    · rw [if_pos hfin] at hc
      rcases List.mem_append.mp hc with hc1 | hc2
      · exact hinv.2.2 c hc1
      · rw [List.mem_singleton] at hc2
        subst hc2
        exact chunkOk_of_push tok hT cs os text st.cur
          (fun hgt => hinv.2.1 (hinv.1 ▸ hgt))
    · rw [if_neg hfin] at hc
      exact hinv.2.2 c hc

theorem claim_C2_witness :
    (∀ a b : Str, charTok (a ++ ' ' :: b) = charTok a + charTok b) ∧
    ("aaaa bbb. cccc ddd.".toList ∈
      createOverlappingChunks charTok "aaaa bbb. cccc ddd. eeee fff.".toList 10 5) ∧
    ChunkOk charTok 10 5 "aaaa bbb. cccc ddd. eeee fff.".toList
      "aaaa bbb. cccc ddd.".toList :=
  ⟨charTok_append_space, by decide,
    claim_C2_amended_token_bound charTok charTok_append_space charTok_trim rfl
      "aaaa bbb. cccc ddd. eeee fff.".toList 10 5
      "aaaa bbb. cccc ddd.".toList (by decide)⟩

/- ## Claim C1: segmenter output on oversized files -/

/-- Claim C1: every audio file exceeding a limit is split into exactly
`max(ceil(size / maxSize), ceil(duration / maxDuration))` segments, all of
the same length `duration / numChunks`, segment `i` covering the timestamp
range from `i * chunkDuration` of length `chunkDuration`; the length is at
most `maxDuration` and the ranges tile `[0, duration)` exactly
(`numChunks * chunkDuration = duration`), so there is no gap and no
overlap. -/
theorem claim_C1_splitAudioFile_oversized (fileSize : ℕ) (duration : ℚ)
    (maxSizeBytes : ℕ) (maxDurationSeconds : ℚ)
    (hms : 0 < maxSizeBytes) (hmd : 0 < maxDurationSeconds) (hd : 0 < duration)
    (hex : maxSizeBytes < fileSize ∨ maxDurationSeconds < duration) :
    0 < numChunksFor fileSize duration maxSizeBytes maxDurationSeconds ∧
    (splitAudioFile fileSize duration maxSizeBytes maxDurationSeconds).length =
      numChunksFor fileSize duration maxSizeBytes maxDurationSeconds ∧
    (∀ i, i < numChunksFor fileSize duration maxSizeBytes maxDurationSeconds →
      (splitAudioFile fileSize duration maxSizeBytes maxDurationSeconds)[i]? =
        some (AudioSegment.extract
          ((i : ℚ) * (duration /
            (numChunksFor fileSize duration maxSizeBytes maxDurationSeconds : ℚ)))
          (duration /
            (numChunksFor fileSize duration maxSizeBytes maxDurationSeconds : ℚ)))) ∧
    duration / (numChunksFor fileSize duration maxSizeBytes maxDurationSeconds : ℚ) ≤
      maxDurationSeconds ∧
    ((numChunksFor fileSize duration maxSizeBytes maxDurationSeconds : ℕ) : ℚ) *
      (duration / (numChunksFor fileSize duration maxSizeBytes maxDurationSeconds : ℚ)) =
      duration := by
  set numChunks := numChunksFor fileSize duration maxSizeBytes maxDurationSeconds
    with hnum
  set chunkDuration := duration / (numChunks : ℚ) with hchd
  have hnotin : ¬ (fileSize ≤ maxSizeBytes ∧ duration ≤ maxDurationSeconds) := by
    rcases hex with h | h
    · exact fun hc => absurd hc.1 (not_le.mpr h)
    · exact fun hc => absurd hc.2 (not_le.mpr h)
  have hdm : 0 < duration / maxDurationSeconds := div_pos hd hmd
  have hceil : 0 < ⌈duration / maxDurationSeconds⌉ := Int.ceil_pos.mpr hdm
  have hn1 : 0 < (⌈duration / maxDurationSeconds⌉).toNat := by omega
  have hn0 : 0 < numChunks := lt_of_lt_of_le hn1 (le_max_right _ _)
  have hnQ : (0 : ℚ) < (numChunks : ℚ) := by exact_mod_cast hn0
  have hcastEq : ((⌈duration / maxDurationSeconds⌉).toNat : ℚ) =
      ((⌈duration / maxDurationSeconds⌉ : ℤ) : ℚ) := by
    exact_mod_cast Int.toNat_of_nonneg (le_of_lt hceil)
  have hcast : duration / maxDurationSeconds ≤ (numChunks : ℚ) := by
    have h2 : ((⌈duration / maxDurationSeconds⌉).toNat : ℚ) ≤ (numChunks : ℚ) := by
      exact_mod_cast le_max_right (⌈(fileSize : ℚ) / (maxSizeBytes : ℚ)⌉).toNat
        (⌈duration / maxDurationSeconds⌉).toNat
    calc duration / maxDurationSeconds
        ≤ ((⌈duration / maxDurationSeconds⌉ : ℤ) : ℚ) := Int.le_ceil _
      _ = ((⌈duration / maxDurationSeconds⌉).toNat : ℚ) := hcastEq.symm
      _ ≤ (numChunks : ℚ) := h2
  have hdle : duration ≤ (numChunks : ℚ) * maxDurationSeconds :=
    (div_le_iff hmd).mp hcast
  have hdiv_le : chunkDuration ≤ maxDurationSeconds := by
    rw [show chunkDuration = duration / (numChunks : ℚ) from rfl, div_le_iff hnQ]
    linarith [hdle]
  have hcd : chunkDurationFor fileSize duration maxSizeBytes maxDurationSeconds =
      chunkDuration :=
    min_eq_left hdiv_le
  have hsplit : splitAudioFile fileSize duration maxSizeBytes maxDurationSeconds =
      (List.range numChunks).map
        (fun (i : ℕ) => AudioSegment.extract ((i : ℚ) * chunkDuration) chunkDuration) := by
    unfold splitAudioFile
    rw [if_neg hnotin, hcd]
  refine ⟨hn0, ?_, ?_, hdiv_le, mul_div_cancel₀ duration (ne_of_gt hnQ)⟩
  · rw [hsplit, List.length_map, List.length_range]
  · intro i hi
    rw [hsplit, List.getElem?_map, List.getElem?_range hi]
    rfl

theorem claim_C1_witness :
    (0 < 5242880) ∧ ((0 : ℚ) < 600) ∧ ((0 : ℚ) < 3000) ∧
    (5242880 < 41943040) ∧
    (splitAudioFile 41943040 3000 5242880 600).length = 8 ∧
    ((numChunksFor 41943040 3000 5242880 600 : ℕ) : ℚ) *
      ((3000 : ℚ) / (numChunksFor 41943040 3000 5242880 600 : ℚ)) = 3000 := by
  have h := claim_C1_splitAudioFile_oversized 41943040 3000 5242880 600
    (by norm_num) (by norm_num) (by norm_num) (Or.inl (by norm_num))
  have hnum : numChunksFor 41943040 3000 5242880 600 = 8 := by
    unfold numChunksFor
    rw [show ((41943040 : ℕ) : ℚ) / ((5242880 : ℕ) : ℚ) = ((8 : ℤ) : ℚ) from by norm_num,
      show (3000 : ℚ) / (600 : ℚ) = ((5 : ℤ) : ℚ) from by norm_num,
      Int.ceil_intCast, Int.ceil_intCast]
    decide
  exact ⟨by norm_num, by norm_num, by norm_num, by norm_num,
    by rw [h.2.1, hnum], h.2.2.2.2⟩

/- ## Claim C6: retrieval thresholding, ordering and sentinel -/

/-- Claim C6: when no stored row clears the similarity threshold the
retrieval returns the `No relevant content found` sentinel, and otherwise
it returns at most `matchCount` matches, each with similarity strictly
above the threshold, in descending similarity order. -/
theorem claim_C6_retrieval_threshold (cosDist : List ℚ → List ℚ → ℚ)
    (table : List EmbeddingRow) (q : List ℚ) (thr : ℚ) (cnt : ℕ) :
    ((∀ r ∈ table, ¬ thr < 1 - cosDist r.embedding q) →
      findRelevantContent cosDist table false false q thr cnt =
        RetrievalResult.message "No relevant content found") ∧
    (∀ ms, findRelevantContent cosDist table false false q thr cnt =
        RetrievalResult.results ms →
      ms.length ≤ cnt ∧ (∀ m ∈ ms, thr < m.similarity) ∧
      List.Pairwise (fun a b => b.similarity ≤ a.similarity) ms) := by
  have hfrc : findRelevantContent cosDist table false false q thr cnt =
      (if retrieveMatches cosDist table q thr cnt = [] then
        RetrievalResult.message "No relevant content found"
      else RetrievalResult.results (retrieveMatches cosDist table q thr cnt)) := rfl
  constructor
  · intro hnone
    have hfil : table.filter
        (fun r => decide (thr < 1 - cosDist r.embedding q)) = [] :=
      List.filter_eq_nil_iff.mpr (fun r hr => by simpa using hnone r hr)
    have hempty : retrieveMatches cosDist table q thr cnt = [] := by
      unfold retrieveMatches
      rw [hfil, List.mergeSort_nil, List.take_nil, List.map_nil]
    rw [hfrc, if_pos hempty]
  · intro ms hms
    rw [hfrc] at hms
    by_cases hempty : retrieveMatches cosDist table q thr cnt = []
    · rw [if_pos hempty] at hms
      exact absurd hms (by simp)
    · rw [if_neg hempty] at hms
      have hms2 : ms = retrieveMatches cosDist table q thr cnt := by
        injection hms with h
        exact h.symm
      subst hms2
      unfold retrieveMatches
      refine ⟨?_, ?_, ?_⟩
      · rw [List.length_map, List.length_take]
        exact min_le_left _ _
      · intro m hm
        rcases List.mem_map.mp hm with ⟨r, hr, rfl⟩
        have hr2 : r ∈ table.filter
            (fun r => decide (thr < 1 - cosDist r.embedding q)) :=
          ((List.mergeSort_perm _ _).mem_iff).mp
            (List.Sublist.mem hr (List.take_sublist _ _))
        exact of_decide_eq_true (List.mem_filter.mp hr2).2
      · have htrans : ∀ a b c : EmbeddingRow,
            decide (1 - cosDist b.embedding q ≤ 1 - cosDist a.embedding q) = true →
            decide (1 - cosDist c.embedding q ≤ 1 - cosDist b.embedding q) = true →
            decide (1 - cosDist c.embedding q ≤ 1 - cosDist a.embedding q) = true := by
          intro a b c hab hbc
          exact decide_eq_true (le_trans (of_decide_eq_true hbc) (of_decide_eq_true hab))
        have htotal : ∀ a b : EmbeddingRow,
            (decide (1 - cosDist b.embedding q ≤ 1 - cosDist a.embedding q) ||
              decide (1 - cosDist a.embedding q ≤ 1 - cosDist b.embedding q)) = true := by
          intro a b
          rcases le_total (1 - cosDist b.embedding q) (1 - cosDist a.embedding q) with h | h
          · simp [h]
          · simp [h]
        have hs :
            List.Pairwise
              (fun a b : EmbeddingRow =>
                decide (1 - cosDist b.embedding q ≤ 1 - cosDist a.embedding q) = true)
              ((table.filter
                (fun r => decide (thr < 1 - cosDist r.embedding q))).mergeSort
                (fun a b =>
                  decide (1 - cosDist b.embedding q ≤ 1 - cosDist a.embedding q))) :=
          List.sorted_mergeSort htrans htotal _
        have hs2 := hs.imp (fun h => of_decide_eq_true h)
        have hs3 := hs2.sublist (List.take_sublist cnt _)
        exact List.Pairwise.map _ (fun a b h => h) hs3

theorem claim_C6_witness :
    (findRelevantContent czero [] false false [] (1 / 10) 4 =
      RetrievalResult.message "No relevant content found") ∧
    ((RetrievedMatch.mk 1 "c" 2 ((1 : ℚ) - 0) :: []).length ≤ 4 ∧
      (∀ m ∈ (RetrievedMatch.mk 1 "c" 2 ((1 : ℚ) - 0) :: []), (0 : ℚ) < m.similarity)) := by
  constructor
  · exact (claim_C6_retrieval_threshold czero [] [] (1 / 10) 4).1 (by simp)
  · have hfil : (EmbeddingRow.mk 1 "c" 2 [] :: []).filter
        (fun r => decide ((0 : ℚ) < 1 - czero r.embedding [])) =
        (EmbeddingRow.mk 1 "c" 2 [] :: []) := by
      simp only [List.filter_cons, List.filter_nil]
      norm_num [czero]
    have hsing : (EmbeddingRow.mk 1 "c" 2 [] :: []).mergeSort
        (fun a b => decide ((1 : ℚ) - czero b.embedding [] ≤
          1 - czero a.embedding [])) =
        (EmbeddingRow.mk 1 "c" 2 [] :: []) :=
      List.perm_singleton.mp (List.mergeSort_perm _ _)
    have hms : retrieveMatches czero (EmbeddingRow.mk 1 "c" 2 [] :: []) [] 0 4 =
        (RetrievedMatch.mk 1 "c" 2 ((1 : ℚ) - 0) :: []) := by
      unfold retrieveMatches
      rw [hfil, hsing]
      rfl
    have hres : findRelevantContent czero (EmbeddingRow.mk 1 "c" 2 [] :: [])
        false false [] 0 4 =
        RetrievalResult.results (RetrievedMatch.mk 1 "c" 2 ((1 : ℚ) - 0) :: []) := by
      simp [findRelevantContent, hms]
    have h := (claim_C6_retrieval_threshold czero
      (EmbeddingRow.mk 1 "c" 2 [] :: []) [] 0 4).2
      (RetrievedMatch.mk 1 "c" 2 ((1 : ℚ) - 0) :: []) hres
    exact ⟨h.1, h.2.1⟩

end RunningPublic
